import Mathlib

/-!
Verification of the residue-aggregation and structure-annotation pipeline of
the AFDB_scripts repository (file AM_data_processing.py), as a shallow
embedding in Lean.

Modelling conventions:
* one physical line of a structure file or one string field is a `List Char`;
* Python float values are idealised as rationals; Python `round(x, k)` and
  the fixed-point `format` rounding are modelled as round-half-even on exact
  rationals (ties of binary floats are not representable here anyway);
* fallible Python code is modelled with `Option`/`Except`; an uncaught
  Python exception is an `Except.error` carrying the exception class.
-/

-- Batteries marks the rational operations irreducible, which blocks kernel
-- evaluation of concrete witnesses; restore default reducibility locally.
attribute [local semireducible] Rat.add Rat.mul Rat.sub Rat.inv

deriving instance DecidableEq for Except

/-- The Python exception classes that the modelled code paths can raise. -/
inductive PyExc where
  | requestException
  | typeError
  | valueError
  | nameError
  | indexError
  | osError
deriving DecidableEq

/-- Why opening a file can fail: `open()` raises FileNotFoundError for an
absent path and PermissionError (an OSError) for a present but unreadable
one; the two are distinct Python exception classes. -/
inductive FileError where
  | notFound
  | permissionDenied
deriving DecidableEq

/-- Python slice `l[a:b]` (for `0 ≤ a ≤ b`) on a list of characters. -/
def pySlice (l : List Char) (a b : ℕ) : List Char :=
  (l.drop a).take (b - a)

/-- The characters Python `str.strip()` removes. -/
def isPyWhitespace (c : Char) : Bool :=
  c = ' ' || c = '\t' || c = '\n' || c = '\r' || c = '\x0b' || c = '\x0c'

/-- Python `s.strip()`: drop whitespace from both ends. -/
def pyStrip (l : List Char) : List Char :=
  ((l.dropWhile isPyWhitespace).reverse.dropWhile isPyWhitespace).reverse

/-- `line.startswith("ATOM") or line.startswith("HETATM")` (also used as
`line.startswith(("ATOM", "HETATM"))` in the extraction step). -/
def isAtomLine (l : List Char) : Bool :=
  List.isPrefixOf ['A', 'T', 'O', 'M'] l ||
    List.isPrefixOf ['H', 'E', 'T', 'A', 'T', 'M'] l

/-- Value of one ASCII digit character. -/
def charToDigit (c : Char) : ℕ := c.toNat - 48

/-- The ASCII digit character for a value below ten. -/
def digitToChar (d : ℕ) : Char := Char.ofNat (48 + d)

/-- Numeric value of a decimal digit string, as read by `int()` or
`pd.to_numeric` (most significant digit first). -/
def digitsVal (ds : List Char) : ℕ :=
  Nat.ofDigits 10 ((ds.map charToDigit).reverse)

/-- Helper for printing a natural number in decimal: fuel-driven so that the
kernel can evaluate it. With fuel at least `n + 1` it produces the canonical
decimal digits of `n` (no leading zeros; `0` prints as `"0"`). -/
def decDigitsAux : ℕ → ℕ → List Char
  | 0, _ => []
  | fuel + 1, n =>
    if n < 10 then [digitToChar n]
    else decDigitsAux fuel (n / 10) ++ [digitToChar (n % 10)]

/-- Canonical decimal representation of a natural number (Python `str(n)`). -/
def natToDecimal (n : ℕ) : List Char := decDigitsAux (n + 1) n

/-- A nonempty all-digit string parses to its value, anything else fails. -/
def parseDigits (ds : List Char) : Option ℕ :=
  if ds ≠ [] ∧ ds.all Char.isDigit then some (digitsVal ds) else none

/-- Python `int(s)` on an already-stripped string: optional sign, then a
nonempty digit run; anything else raises ValueError (modelled as `none`).
(Underscore separators and non-ASCII digits are not modelled; structure
files never contain them.) -/
def parsePyInt (s : List Char) : Option ℤ :=
  match s with
  | '-' :: ds => (parseDigits ds).map (fun n => -(n : ℤ))
  | '+' :: ds => (parseDigits ds).map (fun n => (n : ℤ))
  | ds => (parseDigits ds).map (fun n => (n : ℤ))

/-- Unsigned part of Python `float(s)`: digits with an optional decimal
point (`"12"`, `"12.5"`, `"12."`, `".5"`). Exponent, `inf` and `nan` forms
are not modelled; the fixed-width structure-file field only ever holds
fixed-point notation. -/
def parsePyFloatUnsigned (s : List Char) : Option ℚ :=
  let ip := s.takeWhile Char.isDigit
  match s.dropWhile Char.isDigit with
  | [] => if ip = [] then none else some ((digitsVal ip : ℚ))
  | '.' :: fp =>
    if (ip ≠ [] ∨ fp ≠ []) ∧ fp.all Char.isDigit then
      some (mkRat ((digitsVal ip : ℤ) * 10 ^ fp.length + digitsVal fp) (10 ^ fp.length))
    else none
  | _ => none

/-- Python `float(s)` on an already-stripped string; `none` is ValueError. -/
def parsePyFloat (s : List Char) : Option ℚ :=
  match s with
  | '-' :: r => (parsePyFloatUnsigned r).map (fun q => -q)
  | '+' :: r => parsePyFloatUnsigned r
  | r => parsePyFloatUnsigned r

/-- Round half to even (the rounding of Python `round` and `format`) of the
fraction `n / d`, for `d > 0`, as an integer. `f` is the floor and `r2` the
numerator of twice the fractional part over denominator `d`. -/
def rhePair (n d : ℤ) : ℤ :=
  let f := n.fdiv d
  let r2 := 2 * (n - f * d)
  if r2 < d then f
  else if d < r2 then f + 1
  else if f % 2 = 0 then f else f + 1

/-- Python `round(q, 4)` on an exact rational value. -/
def round4 (q : ℚ) : ℚ :=
  mkRat (rhePair (q.num * 10000) q.den) 10000

/-- Decimal fixed-point print of a nonnegative number of hundredths:
`fmtCents 1234 = "12.34"`, `fmtCents 5 = "0.05"`. -/
def fmtCents (k : ℕ) : List Char :=
  natToDecimal (k / 100) ++
    '.' :: (if k % 100 < 10 then '0' :: natToDecimal (k % 100) else natToDecimal (k % 100))

/-- Python `f"{v:.2f}"`: round half to even at two decimals, then print in
fixed point. (The sign of a negative zero float is not representable on ℚ;
values in the documented score range [0, 1] are unaffected.) -/
def pyFormat2 (v : ℚ) : List Char :=
  let c := rhePair (v.num * 100) v.den
  if c < 0 then '-' :: fmtCents c.natAbs else fmtCents c.natAbs

/-- The padding loop `while len(value_str) < 6: value_str = " " + value_str`:
prepend spaces until the length reaches six; longer strings are returned
unchanged (the loop body never runs for them). -/
def pad6 (s : List Char) : List Char :=
  List.replicate (6 - s.length) ' ' ++ s

/-- Numpy basic indexing `arr[i]` with an integer index: `0 ≤ i < len` reads
position `i`; `-len ≤ i < 0` reads position `len + i`; anything else raises
IndexError. Entries are `none` for NaN (`np.isnan`). -/
def npIndex (t : List (Option ℚ)) (i : ℤ) : Except PyExc (Option ℚ) :=
  if 0 ≤ i then
    match t[i.toNat]? with
    | some x => .ok x
    | none => .error .indexError
  else if -i ≤ (t.length : ℤ) then
    match t[((t.length : ℤ) + i).toNat]? with
    | some x => .ok x
    | none => .error .indexError
  else .error .indexError

/-- The per-line body of the writing loop of `modify_pdb_with_am_data`.
For an `ATOM`/`HETATM` line: `int(line[22:26].strip())` (ValueError when not
parsable — the surrounding `try` catches only IOError); then
`if residue_number < len(average_scores_file) and not
np.isnan(average_scores_file[residue_number])` splice the two-decimal,
width-six padded score into columns [60, 66); otherwise write the line
unchanged. Non-atom lines are written unchanged. -/
def annotateLine (t : List (Option ℚ)) (line : List Char) :
    Except PyExc (List Char) :=
  if isAtomLine line then
    match parsePyInt (pyStrip (pySlice line 22 26)) with
    | none => .error .valueError
    | some rn =>
      if rn < (t.length : ℤ) then
        match npIndex t rn with
        | .error e => .error e
        | .ok none => .ok line
        | .ok (some v) => .ok (line.take 60 ++ pad6 (pyFormat2 v) ++ line.drop 66)
      else .ok line
  else .ok line

/-- The writing loop of `modify_pdb_with_am_data` over all lines: lines are
processed in order; the first uncaught exception aborts the pass (the lines
already written stay in the partially written file, which the `Except`
result abstracts away). -/
def modifyLines (t : List (Option ℚ)) : List (List Char) → Except PyExc (List (List Char))
  | [] => .ok []
  | l :: ls =>
    match annotateLine t l with
    | .error e => .error e
    | .ok l' =>
      match modifyLines t ls with
      | .error e => .error e
      | .ok ls' => .ok (l' :: ls')

/-- One row of the downloaded AlphaMissense CSV: the variant identifier
string and the numeric `am_pathogenicity` column. -/
structure RawRow where
  protein_variant : List Char
  am_pathogenicity : ℚ
deriving DecidableEq

/-- One parsed variant record (one row of the DataFrame built by
`extract_am_data`). A field is `none` where the extraction regex did not
match (pandas NaN). -/
structure VariantRecord where
  reference_aa : Option Char
  residue_number : Option ℕ
  alternative_aa : Option Char
  pathogenicity_score : ℚ
deriving DecidableEq

/-- Regex `^([A-Z])`: the leading character when it is an uppercase letter. -/
def extractRef (s : List Char) : Option Char :=
  match s with
  | [] => none
  | c :: _ => if c.isUpper then some c else none

/-- Regex `([A-Z])$`: the final character when it is an uppercase letter. -/
def extractAlt (s : List Char) : Option Char :=
  match s.getLast? with
  | none => none
  | some c => if c.isUpper then some c else none

/-- Regex `([0-9]+)` (unanchored): the first maximal run of digits. -/
def firstDigitRun (s : List Char) : Option (List Char) :=
  match s.dropWhile (fun c => !c.isDigit) with
  | [] => none
  | c :: cs => some (List.takeWhile Char.isDigit (c :: cs))

/-- `pd.to_numeric` of the extracted digit run (NaN stays NaN). -/
def extractNum (s : List Char) : Option ℕ :=
  (firstDigitRun s).map digitsVal

/-- One row of the DataFrame built by `extract_am_data` from one CSV row. -/
def extractRecord (row : RawRow) : VariantRecord :=
  { reference_aa := extractRef row.protein_variant
    residue_number := extractNum row.protein_variant
    alternative_aa := extractAlt row.protein_variant
    pathogenicity_score := row.am_pathogenicity }

/-- `extract_am_data`: `none` when `pd.read_csv` raised (the function then
returns None); otherwise every row is parsed positionally. -/
def extract_am_data (csv : Option (List RawRow)) : Option (List VariantRecord) :=
  csv.map (List.map extractRecord)

/-- The scores of the records carrying residue number `n` (the group that
`groupby(['residue_number'])` forms at key `n`; rows with NaN key are
dropped from every group). -/
def scoresAt (recs : List VariantRecord) (n : ℕ) : List ℚ :=
  (recs.filter (fun r => r.residue_number == some n)).map (·.pathogenicity_score)

/-- The arithmetic mean of the scores grouped at residue `n`. -/
def meanAt (recs : List VariantRecord) (n : ℕ) : ℚ :=
  (scoresAt recs n).sum / ((scoresAt recs n).length : ℚ)

/-- `grouped['residue_number'].max()` over the valid (non-NaN) keys. -/
def maxResidue (recs : List VariantRecord) : ℕ :=
  (recs.filterMap (·.residue_number)).foldr max 0

/-- `calculate_average_pathogenicity`. `None` input returns `None`. The
dense table `np.full(max_residue_number + 1, np.nan)` is only built when
`max_residue_number + 1` is an integer: if the input is empty the max of no
keys is NaN, and if any row has a missing residue number the key column has
float dtype and the max is a non-index float — `np.full` then raises
TypeError in both cases. Otherwise slot `i` holds the group mean rounded to
4 decimals for represented residues and NaN (`none`) elsewhere. -/
def calculate_average_pathogenicity (am_data : Option (List VariantRecord)) :
    Except PyExc (Option (List (Option ℚ))) :=
  match am_data with
  | none => .ok none
  | some recs =>
    if recs ≠ [] ∧ ∀ r ∈ recs, r.residue_number ≠ none then
      .ok (some ((List.range (maxResidue recs + 1)).map (fun i =>
        if scoresAt recs i = [] then none else some (round4 (meanAt recs i)))))
    else .error .typeError

/-- The score-collecting loop of `extract_pathogenicity_and_plddt` over one
source: scan the lines in order, parse `float(line[60:66].strip())` on atom
lines; the first unparsable field raises ValueError, which the caller
catches — the scores appended so far are kept and the loop stops. -/
def collectScores : List (List Char) → List ℚ
  | [] => []
  | l :: ls =>
    if isAtomLine l then
      match parsePyFloat (pyStrip (pySlice l 60 66)) with
      | none => []
      | some v => v :: collectScores ls
    else collectScores ls

/-- `extract_pathogenicity_and_plddt`. The first source is the annotated
file on disk: reading it can fail with FileNotFoundError (caught: the first
series stays empty) or PermissionError (not in the `except` clauses: the
exception escapes the function). The second source is the structure URL:
any `requests` failure is caught and the second series stays empty
(modelled by `none`). -/
def extract_pathogenicity_and_plddt (amFile : Except FileError (List (List Char)))
    (pdbFetch : Option (List (List Char))) : Except PyExc (List ℚ × List ℚ) :=
  let plddt := match pdbFetch with
    | none => []
    | some ls => collectScores ls
  match amFile with
  | .error .permissionDenied => .error .osError
  | .error .notFound => .ok ([], plddt)
  | .ok ls => .ok (collectScores ls, plddt)

/-- The two resource locators of one API entry that this pipeline reads
(`data[0].get(...)`; a missing key yields the hard-coded message string). -/
structure ApiEntry where
  amAnnotationsUrl : Option (List Char)
  pdbUrl : Option (List Char)

/-- The external world one batch run interacts with. `fetch` is
`fetch_AFDB_data` (it catches its own network errors and returns None);
`csv` is the outcome of `pd.read_csv` at a URL (`none` when it raises);
`pdbText` is `requests.get(url).text.splitlines()` (`none` when the request
raises a RequestException). -/
structure World where
  fetch : List Char → Option ApiEntry
  csv : List Char → Option (List RawRow)
  pdbText : List Char → Option (List (List Char))

/-- `extract_alpha_missense_url` on a non-empty API result. -/
def extract_alpha_missense_url (entry : ApiEntry) : List Char :=
  entry.amAnnotationsUrl.getD
    ['N', 'o', ' ', 'A', 'M', ' ', 'd', 'a', 't', 'a']

/-- `extract_pdb_url` on a non-empty API result. -/
def extract_pdb_url (entry : ApiEntry) : List Char :=
  entry.pdbUrl.getD
    ['N', 'o', ' ', 'P', 'D', 'B', ' ', 'u', 'r', 'l']

/-- `url.startswith("http")`. -/
def startsWithHttp (s : List Char) : Bool :=
  List.isPrefixOf ['h', 't', 't', 'p'] s

/-- `modify_pdb_with_am_data` including the retrieval of the structure
text: a failed `requests.get` is caught and logged, after which the loop
`for line in pdb_content` hits the unbound local `pdb_content` and raises
NameError (UnboundLocalError). -/
def modify_pdb_with_am_data (pdbFetch : Option (List (List Char)))
    (t : List (Option ℚ)) : Except PyExc (List (List Char)) :=
  match pdbFetch with
  | none => .error .nameError
  | some lines => modifyLines t lines

/-- The body of the per-protein loop of `process_am_from_file` (plotting is
an out-of-scope collaborator and is not modelled; the annotated file handed
to the extraction step is the one the annotator just wrote, or absent when
no annotation happened). -/
def processOne (w : World) (uid : List Char) : Except PyExc Unit :=
  match w.fetch uid with
  | none => .ok ()
  | some entry =>
    let amUrl := extract_alpha_missense_url entry
    if startsWithHttp amUrl then
      let pdbUrl := extract_pdb_url entry
      match extract_am_data (w.csv amUrl) with
      | some recs =>
        match calculate_average_pathogenicity (some recs) with
        | .error e => .error e
        | .ok none => .ok ()
        | .ok (some table) =>
          match modify_pdb_with_am_data (w.pdbText pdbUrl) table with
          | .error e => .error e
          | .ok written =>
            match extract_pathogenicity_and_plddt (.ok written) (w.pdbText pdbUrl) with
            | .error e => .error e
            | .ok _ => .ok ()
      | none =>
        match extract_pathogenicity_and_plddt (.error .notFound) (w.pdbText pdbUrl) with
        | .error e => .error e
        | .ok _ => .ok ()
    else .ok ()

/-- The batch loop of `process_am_from_file`: the `try` around the body
catches only `requests.exceptions.RequestException`; any other exception
escapes the loop and aborts the whole run. -/
def process_am_from_file (w : World) : List (List Char) → Except PyExc Unit
  | [] => .ok ()
  | uid :: rest =>
    match processOne w uid with
    | .ok _ => process_am_from_file w rest
    | .error .requestException => process_am_from_file w rest
    | .error e => .error e

/-- Reconstruction of a variant identifier from the three parsed fields,
the inverse direction of the round-trip property. -/
def reconstructVariant (ref : Char) (n : ℕ) (alt : Char) : List Char :=
  ref :: (natToDecimal n ++ [alt])

/-! Concrete inputs used to evaluate the model at specific points. -/

/-- A 66-column `ATOM` line with residue number 1 in columns [22, 26) and
`" 95.50"` in columns [60, 66). -/
def exLineC1 : List Char :=
  ['A', 'T', 'O', 'M'] ++ List.replicate 18 ' ' ++ [' ', ' ', ' ', '1'] ++
    List.replicate 34 ' ' ++ [' ', '9', '5', '.', '5', '0']

/-- An `ATOM` line whose residue columns [22, 26) hold `"abcd"`, which
`int()` cannot parse. -/
def c2BadLine : List Char :=
  ['A', 'T', 'O', 'M'] ++ List.replicate 18 ' ' ++ ['a', 'b', 'c', 'd']

/-- An `ATOM` line whose residue columns [22, 26) hold `"  -1"`: parsable,
but a negative index into the score table. -/
def c2NegLine : List Char :=
  ['A', 'T', 'O', 'M'] ++ List.replicate 18 ' ' ++ [' ', ' ', '-', '1']

/-- The records of the end-to-end example rows `M1V 0.1`, `M1K 0.3`,
`A2G 0.9`. -/
def c3Recs : List VariantRecord :=
  [extractRecord ⟨['M', '1', 'V'], mkRat 1 10⟩,
   extractRecord ⟨['M', '1', 'K'], mkRat 3 10⟩,
   extractRecord ⟨['A', '2', 'G'], mkRat 9 10⟩]

/-- A well-formed row at residue 12 with score 0. -/
def c6Rec1 : VariantRecord := extractRecord ⟨['A', '1', '2', 'B'], 0⟩

/-- A row whose identifier has a lowercase leading letter (the reference
field fails the pattern) but still carries the digit run `12`; score 1. -/
def c6Rec2 : VariantRecord := extractRecord ⟨['a', '1', '2', 'B'], 1⟩

/-- The aggregate table the code builds from `c6Rec1` and `c6Rec2`. -/
def c6Table : List (Option ℚ) := List.replicate 12 none ++ [some (mkRat 1 2)]

/-- The record parsed from the syntactically valid identifier `M0V`, whose
residue number is 0. -/
def c7Rec : VariantRecord := extractRecord ⟨['M', '0', 'V'], mkRat 1 2⟩

/-- A single valid record at residue 1. -/
def c7wRec : VariantRecord :=
  { reference_aa := some 'M', residue_number := some 1
    alternative_aa := some 'V', pathogenicity_score := mkRat 1 10 }

/-- A world whose AM CSV holds a single row `XYZ` with no digit run: the
aggregator raises TypeError on it. -/
def w8 : World :=
  { fetch := fun _ => some
      { amAnnotationsUrl := some ['h', 't', 't', 'p', ':', '/', '/', 'a']
        pdbUrl := some ['h', 't', 't', 'p', ':', '/', '/', 'b'] }
    csv := fun _ => some [⟨['X', 'Y', 'Z'], mkRat 1 2⟩]
    pdbText := fun _ => some [] }

/-- The same world with a well-formed AM CSV row `M1V`. -/
def w8good : World :=
  { w8 with csv := fun _ => some [⟨['M', '1', 'V'], mkRat 1 10⟩] }

/-- A world whose AM CSV cannot be loaded at all (`pd.read_csv` raises, so
`extract_am_data` returns the None signal). -/
def w5 : World :=
  { w8 with csv := fun _ => none }

/-! Helper lemmas. -/

/-- One iteration of the padding loop: below width six, a space is
prepended and the loop continues. -/
theorem pad6_step (s : List Char) (h : s.length < 6) :
    pad6 s = pad6 (' ' :: s) := by
  unfold pad6
  have h6 : 6 - s.length = (6 - (' ' :: s).length) + 1 := by
    simp only [List.length_cons]; omega
  rw [h6, List.replicate_succ', List.append_assoc]
  rfl

/-- The padding loop exits at once for strings already six long or longer. -/
theorem pad6_exit (s : List Char) (h : 6 ≤ s.length) : pad6 s = s := by
  unfold pad6
  have : 6 - s.length = 0 := by omega
  simp [this]

/-- Padding a string of length at most six yields exactly width six. -/
theorem pad6_length (s : List Char) (h : s.length ≤ 6) :
    (pad6 s).length = 6 := by
  simp only [pad6, List.length_append, List.length_replicate]
  omega

/-- `rhePair` of an exact multiple returns the quotient. -/
theorem rhePair_mul (m d : ℤ) (hd : 0 < d) : rhePair (m * d) d = m := by
  unfold rhePair
  rw [Int.mul_fdiv_cancel m (ne_of_gt hd)]
  simp [hd]

/-- `rhePair` never falls below the floor, hence is nonnegative on
nonnegative input. -/
theorem rhePair_nonneg (n d : ℤ) (hd : 0 < d) (hn : 0 ≤ n) :
    0 ≤ rhePair n d := by
  have hf : 0 ≤ n.fdiv d := Int.fdiv_nonneg hn (le_of_lt hd)
  unfold rhePair
  dsimp only
  split_ifs <;> omega

/-- `rhePair` of a fraction at most 100 is at most 100. -/
theorem rhePair_le_hundred (n d : ℤ) (hd : 0 < d) (hn : n ≤ 100 * d) :
    rhePair n d ≤ 100 := by
  have hmod := Int.fdiv_add_fmod n d
  have hm0 : 0 ≤ n.fmod d := Int.fmod_nonneg' n hd
  have hm1 : n.fmod d < d := Int.fmod_lt_of_pos n hd
  have hfe : n.fdiv d = n / d := Int.fdiv_eq_ediv n (le_of_lt hd)
  have hf : n.fdiv d ≤ 100 := by
    rw [hfe]
    calc n / d ≤ (100 * d) / d := Int.ediv_le_ediv hd hn
      _ = 100 := Int.mul_ediv_cancel 100 (ne_of_gt hd)
  have hfd : n - n.fdiv d * d = n.fmod d := by
    have hc : d * n.fdiv d = n.fdiv d * d := mul_comm _ _
    linarith [hmod]
  unfold rhePair
  dsimp only
  rw [hfd]
  rcases lt_or_eq_of_le hf with hf' | hf'
  · split_ifs <;> omega
  · have hr0 : n.fmod d ≤ 0 := by
      have h1 : d * 100 + n.fmod d = n := by
        rw [← hf']; exact hmod
      omega
    have h2 : 2 * n.fmod d < d := by omega
    rw [if_pos h2]
    exact le_of_eq hf'

/-- Rounding to four decimals is idempotent. -/
theorem round4_idem (q : ℚ) : round4 (round4 q) = round4 q := by
  unfold round4
  set m := rhePair (q.num * 10000) q.den with hm
  have hden : (0 : ℤ) < ((mkRat m 10000).den : ℤ) := by
    exact_mod_cast (mkRat m 10000).pos
  have hcross : (mkRat m 10000).num * 10000 = m * ((mkRat m 10000).den : ℤ) := by
    have h1 : ((mkRat m 10000).num : ℚ) / ((mkRat m 10000).den : ℚ) =
        (m : ℚ) / (10000 : ℚ) := by
      rw [Rat.num_div_den, Rat.mkRat_eq_div]
      norm_num
    have h2 : ((mkRat m 10000).num : ℚ) * (10000 : ℚ) =
        (m : ℚ) * ((mkRat m 10000).den : ℚ) := by
      rw [div_eq_div_iff (by positivity) (by norm_num)] at h1
      linarith [h1]
    exact_mod_cast h2
  rw [hcross, rhePair_mul m _ hden]

/-- An ASCII digit character has code point between 48 and 57. -/
theorem toNat_bounds_of_isDigit (c : Char) (h : c.isDigit = true) :
    48 ≤ c.toNat ∧ c.toNat ≤ 57 := by
  simp only [Char.isDigit, Bool.and_eq_true, decide_eq_true_eq] at h
  exact h

/-- The code point bounds of an uppercase ASCII letter. -/
theorem toNat_bounds_of_isUpper (c : Char) (h : c.isUpper = true) :
    65 ≤ c.toNat ∧ c.toNat ≤ 90 := by
  simp only [Char.isUpper, Bool.and_eq_true, decide_eq_true_eq] at h
  obtain ⟨h1, h2⟩ := h
  rw [ge_iff_le, UInt32.le_def, BitVec.le_def] at h1
  rw [UInt32.le_def, BitVec.le_def] at h2
  exact ⟨h1, h2⟩

/-- An uppercase letter is not a digit. -/
theorem not_isDigit_of_isUpper (c : Char) (h : c.isUpper = true) :
    c.isDigit = false := by
  cases hd : c.isDigit
  · rfl
  · exfalso
    have h1 := toNat_bounds_of_isDigit c hd
    have h2 := toNat_bounds_of_isUpper c h
    omega

/-- The value of a digit character is below ten. -/
theorem charToDigit_lt_ten (c : Char) (h : c.isDigit = true) :
    charToDigit c < 10 := by
  have := toNat_bounds_of_isDigit c h
  unfold charToDigit
  omega

/-- Printing the value of a digit character gives the character back. -/
theorem digitToChar_charToDigit (c : Char) (h : c.isDigit = true) :
    digitToChar (charToDigit c) = c := by
  have hb := toNat_bounds_of_isDigit c h
  unfold digitToChar charToDigit
  have he : 48 + (c.toNat - 48) = c.toNat := by omega
  rw [he, Char.ofNat_toNat]

/-- Among digit characters, only `'0'` has value zero. -/
theorem charToDigit_eq_zero_iff (c : Char) (h : c.isDigit = true) :
    charToDigit c = 0 ↔ c = '0' := by
  constructor
  · intro h0
    have hb := toNat_bounds_of_isDigit c h
    have h48 : c.toNat = 48 := by unfold charToDigit at h0; omega
    have := Char.ofNat_toNat c
    rw [h48] at this
    exact this.symm
  · intro h0
    subst h0
    decide

/-- With enough fuel, the decimal printer produces the canonical digit
string (most significant first). -/
theorem decDigitsAux_eq (fuel : ℕ) :
    ∀ n : ℕ, 0 < n → n ≤ fuel →
      decDigitsAux fuel n = ((Nat.digits 10 n).map digitToChar).reverse := by
  induction fuel with
  | zero => intro n h0 hf; omega
  | succ fuel ih =>
    intro n h0 hf
    by_cases h10 : n < 10
    · have hdig : Nat.digits 10 n = [n] := by
        rw [Nat.digits_def' (by norm_num : 1 < 10) h0,
          Nat.mod_eq_of_lt h10, Nat.div_eq_of_lt h10]
        simp
      simp [decDigitsAux, h10, hdig]
    · push_neg at h10
      have hrec := ih (n / 10) (by omega) (by omega)
      rw [show decDigitsAux (fuel + 1) n =
          decDigitsAux fuel (n / 10) ++ [digitToChar (n % 10)] by
        simp [decDigitsAux]; omega]
      rw [hrec, Nat.digits_def' (by norm_num : 1 < 10) h0]
      simp

/-- The decimal print of a positive number is the canonical digit string. -/
theorem natToDecimal_eq (n : ℕ) (h0 : 0 < n) :
    natToDecimal n = ((Nat.digits 10 n).map digitToChar).reverse :=
  decDigitsAux_eq (n + 1) n h0 (by omega)

/-- A one-digit value prints as a single character. -/
theorem natToDecimal_lt_ten (m : ℕ) (h : m < 10) :
    natToDecimal m = [digitToChar m] := by
  simp [natToDecimal, decDigitsAux, h]

/-- A two-digit value prints as two characters. -/
theorem natToDecimal_two_digits (r : ℕ) (h1 : 10 ≤ r) (h2 : r < 100) :
    natToDecimal r = [digitToChar (r / 10), digitToChar (r % 10)] := by
  have hd : Nat.digits 10 r = [r % 10, r / 10] := by
    rw [Nat.digits_def' (by norm_num : 1 < 10) (by omega : 0 < r),
      Nat.digits_def' (by norm_num : 1 < 10) (by omega : 0 < r / 10),
      Nat.mod_eq_of_lt (by omega : r / 10 < 10),
      Nat.div_eq_of_lt (by omega : r / 10 < 10)]
    simp
  rw [natToDecimal_eq r (by omega), hd]
  simp

/-- Printing the value of a digit string recovers the string, when the
string has no leading zero (or is exactly `"0"`). -/
theorem natToDecimal_digitsVal (ds : List Char) (hne : ds ≠ [])
    (hdig : ∀ c ∈ ds, c.isDigit = true)
    (hlz : ds.head? ≠ some '0' ∨ ds = ['0']) :
    natToDecimal (digitsVal ds) = ds := by
  rcases hlz with hlz | rfl
  · obtain ⟨d, ds', rfl⟩ := List.exists_cons_of_ne_nil hne
    have hd : d.isDigit = true := hdig d (List.mem_cons_self d ds')
    have hd0 : d ≠ '0' := by
      intro h; exact hlz (by rw [h]; rfl)
    set L : List ℕ := ((d :: ds').map charToDigit).reverse with hL
    have hL10 : ∀ l ∈ L, l < 10 := by
      intro l hl
      rw [hL, List.mem_reverse, List.mem_map] at hl
      obtain ⟨c, hc, rfl⟩ := hl
      exact charToDigit_lt_ten c (hdig c hc)
    have hLne : L ≠ [] := by simp [hL]
    have hlast : ∀ (h : L ≠ []), L.getLast h ≠ 0 := by
      intro h
      have hL2 : L = (ds'.map charToDigit).reverse ++ [charToDigit d] := by
        simp [hL]
      have hsome : L.getLast? = some (charToDigit d) := by
        rw [hL2]; exact List.getLast?_concat _
      rw [List.getLast?_eq_getLast L h] at hsome
      intro h0
      rw [h0] at hsome
      exact hd0 ((charToDigit_eq_zero_iff d hd).mp (Option.some.inj hsome).symm)
    have hdg : Nat.digits 10 (Nat.ofDigits 10 L) = L :=
      Nat.digits_ofDigits 10 (by norm_num) L hL10 hlast
    have hpos : 0 < Nat.ofDigits 10 L := by
      rcases Nat.eq_zero_or_pos (Nat.ofDigits 10 L) with h0 | h0
      · exfalso
        rw [h0] at hdg
        simp only [Nat.digits_zero] at hdg
        exact hLne hdg.symm
      · exact h0
    have : digitsVal (d :: ds') = Nat.ofDigits 10 L := by
      simp [digitsVal, hL]
    rw [this, natToDecimal_eq _ hpos, hdg, hL]
    rw [List.map_reverse, List.reverse_reverse, List.map_map]
    calc List.map (digitToChar ∘ charToDigit) (d :: ds')
        = List.map id (d :: ds') :=
          List.map_congr_left (fun c hc => digitToChar_charToDigit c (hdig c hc))
      _ = d :: ds' := List.map_id _
  · decide

/-- At most one hundred hundredths print as exactly four characters. -/
theorem fmtCents_length (k : ℕ) (hk : k ≤ 100) : (fmtCents k).length = 4 := by
  unfold fmtCents
  have hq : k / 100 < 10 := by omega
  rw [natToDecimal_lt_ten _ hq]
  by_cases hr : k % 100 < 10
  · rw [if_pos hr, natToDecimal_lt_ten _ hr]
    rfl
  · rw [if_neg hr, natToDecimal_two_digits (k % 100) (by omega) (by omega)]
    rfl

/-- A score in the documented range [0, 1] formats to four characters
(`"0.00"` through `"1.00"`). -/
theorem pyFormat2_length_of_unit (v : ℚ) (h0 : 0 ≤ v) (h1 : v ≤ 1) :
    (pyFormat2 v).length = 4 := by
  have hden : (0 : ℤ) < (v.den : ℤ) := by exact_mod_cast v.pos
  have hnum0 : 0 ≤ v.num := Rat.num_nonneg.mpr h0
  have hnumden : v.num ≤ (v.den : ℤ) := by
    have hd : (0 : ℚ) < (v.den : ℚ) := by exact_mod_cast v.pos
    have h2 : (v.num : ℚ) / (v.den : ℚ) ≤ 1 := by rw [Rat.num_div_den]; exact h1
    exact_mod_cast (div_le_one hd).mp h2
  have hc0 : 0 ≤ rhePair (v.num * 100) v.den :=
    rhePair_nonneg _ _ hden (by positivity)
  have hc1 : rhePair (v.num * 100) v.den ≤ 100 := by
    apply rhePair_le_hundred _ _ hden
    nlinarith
  unfold pyFormat2
  dsimp only
  rw [if_neg (by omega)]
  apply fmtCents_length
  omega

/-- Appending one failing element to an all-satisfying list: `takeWhile`
returns exactly the prefix. -/
theorem takeWhile_all_concat (p : Char → Bool) (l : List Char) (x : Char)
    (hall : ∀ c ∈ l, p c = true) (hx : p x = false) :
    (l ++ [x]).takeWhile p = l := by
  induction l with
  | nil => simp [List.takeWhile_cons, hx]
  | cons a l ih =>
    have ha : p a = true := hall a (List.mem_cons_self a l)
    simp only [List.cons_append, List.takeWhile_cons, ha, if_true]
    rw [ih (fun c hc => hall c (List.mem_cons_of_mem a hc))]

/-- Any member is bounded by the `foldr max 0` of its list. -/
theorem le_foldr_max (l : List ℕ) (a : ℕ) (h : a ∈ l) :
    a ≤ l.foldr max 0 := by
  induction l with
  | nil => cases h
  | cons b l ih =>
    rcases List.mem_cons.mp h with rfl | h'
    · exact le_max_left _ _
    · exact le_trans (ih h') (le_max_right _ _)

/-- A residue group is nonempty exactly when some record carries that
residue number. -/
theorem scoresAt_ne_nil_iff (recs : List VariantRecord) (n : ℕ) :
    scoresAt recs n ≠ [] ↔ ∃ r ∈ recs, r.residue_number = some n := by
  unfold scoresAt
  rw [ne_eq, List.map_eq_nil_iff, List.filter_eq_nil_iff]
  push_neg
  constructor
  · rintro ⟨r, hr, hp⟩
    exact ⟨r, hr, by simpa using hp⟩
  · rintro ⟨r, hr, hp⟩
    exact ⟨r, hr, by simpa using hp⟩

/-- Non-atom lines are written back unchanged. -/
theorem annotateLine_not_atom (t : List (Option ℚ)) (line : List Char)
    (h : isAtomLine line = false) : annotateLine t line = .ok line := by
  simp [annotateLine, h]

/-- An atom line whose residue number is at least the table length is
written back unchanged. -/
theorem annotateLine_out_of_range (t : List (Option ℚ)) (line : List Char)
    (n : ℕ) (hp : parsePyInt (pyStrip (pySlice line 22 26)) = some ((n : ℕ) : ℤ))
    (hge : t.length ≤ n) : annotateLine t line = .ok line := by
  unfold annotateLine
  cases hA : isAtomLine line
  · simp
  · simp only [if_true, hp]
    rw [if_neg (by exact_mod_cast not_lt.mpr hge)]

/-- An atom line whose residue holds no aggregated score (NaN) is written
back unchanged. -/
theorem annotateLine_no_data (t : List (Option ℚ)) (line : List Char)
    (n : ℕ) (hp : parsePyInt (pyStrip (pySlice line 22 26)) = some ((n : ℕ) : ℤ))
    (hlt : n < t.length) (hnone : t[n]? = some none) :
    annotateLine t line = .ok line := by
  unfold annotateLine
  cases hA : isAtomLine line
  · simp
  · simp only [if_true, hp]
    rw [if_pos (by exact_mod_cast hlt)]
    unfold npIndex
    rw [if_pos (by positivity)]
    simp [hnone]

/-- An atom line whose residue holds a score is written back with the
formatted score spliced into columns [60, 66). -/
theorem annotateLine_modified (t : List (Option ℚ)) (line : List Char)
    (n : ℕ) (v : ℚ) (hA : isAtomLine line = true)
    (hp : parsePyInt (pyStrip (pySlice line 22 26)) = some ((n : ℕ) : ℤ))
    (hlt : n < t.length) (hsome : t[n]? = some (some v)) :
    annotateLine t line =
      .ok (line.take 60 ++ pad6 (pyFormat2 v) ++ line.drop 66) := by
  unfold annotateLine
  simp only [hA, if_true, hp]
  rw [if_pos (by exact_mod_cast hlt)]
  unfold npIndex
  rw [if_pos (by positivity)]
  simp [hsome]

/-- When every atom line carries a parsable nonnegative residue number, no
line raises: the per-line transform always produces a line. -/
theorem annotateLine_ok_exists (t : List (Option ℚ)) (line : List Char)
    (h : isAtomLine line = true →
      ∃ n : ℕ, parsePyInt (pyStrip (pySlice line 22 26)) = some ((n : ℕ) : ℤ)) :
    ∃ out, annotateLine t line = .ok out := by
  cases hA : isAtomLine line
  · exact ⟨line, annotateLine_not_atom t line hA⟩
  · obtain ⟨n, hp⟩ := h hA
    by_cases hlt : n < t.length
    · have hn : t[n]? = some t[n] := List.getElem?_eq_getElem hlt
      cases hv : t[n] with
      | none => exact ⟨line, annotateLine_no_data t line n hp hlt (by rw [hn, hv])⟩
      | some v =>
        exact ⟨_, annotateLine_modified t line n v hA hp hlt (by rw [hn, hv])⟩
    · exact ⟨line, annotateLine_out_of_range t line n hp (by omega)⟩

/-! Claim theorems. -/

/-- C1: for an ATOM/HETATM line of the fixed-width format (at least 66
columns) whose residue columns [22, 26) parse to an in-range residue with
an aggregated score, the annotated output line is the input with the score
formatted to two decimals and left-padded to exactly width six spliced into
columns [60, 66); all columns before 60 and from 66 on are byte-identical.
The width-six statement uses the documented score range 0 ≤ v ≤ 1 of the
data model (means of scores in [0, 1] stay in [0, 1]). -/
theorem c1_annotated_line_splice (t : List (Option ℚ)) (line : List Char)
    (n : ℕ) (v : ℚ)
    (hatom : isAtomLine line = true)
    (hline : 66 ≤ line.length)
    (hparse : parsePyInt (pyStrip (pySlice line 22 26)) = some ((n : ℕ) : ℤ))
    (hlen : n < t.length)
    (hentry : t[n]? = some (some v))
    (h0 : 0 ≤ v) (h1 : v ≤ 1) :
    annotateLine t line =
      .ok (line.take 60 ++ pad6 (pyFormat2 v) ++ line.drop 66) ∧
    (pad6 (pyFormat2 v)).length = 6 ∧
    (line.take 60 ++ pad6 (pyFormat2 v) ++ line.drop 66).length = line.length ∧
    (line.take 60 ++ pad6 (pyFormat2 v) ++ line.drop 66).take 60 = line.take 60 ∧
    (line.take 60 ++ pad6 (pyFormat2 v) ++ line.drop 66).drop 66 = line.drop 66 ∧
    pySlice (line.take 60 ++ pad6 (pyFormat2 v) ++ line.drop 66) 60 66 =
      pad6 (pyFormat2 v) := by
  have hfmt : (pyFormat2 v).length = 4 := pyFormat2_length_of_unit v h0 h1
  have hpadlen : (pad6 (pyFormat2 v)).length = 6 := pad6_length _ (by omega)
  have htk : (line.take 60).length = 60 := by
    rw [List.length_take]; omega
  refine ⟨annotateLine_modified t line n v hatom hparse hlen hentry,
    hpadlen, ?_, ?_, ?_, ?_⟩
  · simp only [List.length_append, htk, hpadlen, List.length_drop]
    omega
  · rw [List.append_assoc]
    exact List.take_left' htk
  · exact List.drop_left' (by simp [htk, hpadlen])
  · unfold pySlice
    rw [List.append_assoc, List.drop_left' htk]
    exact List.take_left' hpadlen

/-- C1 witness: the theorem evaluated on a concrete 66-column ATOM line at
residue 1 with table value 0.1234; the spliced field is `"  0.12"`. -/
theorem c1_witness :
    isAtomLine exLineC1 = true ∧
    66 ≤ exLineC1.length ∧
    parsePyInt (pyStrip (pySlice exLineC1 22 26)) = some ((1 : ℕ) : ℤ) ∧
    1 < ([none, some (mkRat 1234 10000)] : List (Option ℚ)).length ∧
    ([none, some (mkRat 1234 10000)] : List (Option ℚ))[1]? =
      some (some (mkRat 1234 10000)) ∧
    0 ≤ mkRat 1234 10000 ∧ mkRat 1234 10000 ≤ 1 ∧
    annotateLine [none, some (mkRat 1234 10000)] exLineC1 =
      .ok (exLineC1.take 60 ++ pad6 (pyFormat2 (mkRat 1234 10000)) ++
        exLineC1.drop 66) ∧
    pad6 (pyFormat2 (mkRat 1234 10000)) = [' ', ' ', '0', '.', '1', '2'] :=
  ⟨by decide, by decide, by decide, by decide, by decide, by decide, by decide,
    (c1_annotated_line_splice [none, some (mkRat 1234 10000)] exLineC1 1
      (mkRat 1234 10000) (by decide) (by decide) (by decide) (by decide)
      (by decide) (by decide) (by decide)).1, by decide⟩

/-- C2 counterexample: the claim fails as stated. An ATOM line whose
residue columns hold `"abcd"` makes the pass raise ValueError — the output
does not have one line per input line. An ATOM line whose residue columns
hold `"  -1"` parses to a residue number outside the valid range of the
two-slot table, yet numpy negative indexing reads the LAST slot and the
line is modified instead of copied unchanged. -/
theorem c2_counterexample :
    modifyLines [none, some (mkRat 1 2)] [c2BadLine] = .error .valueError ∧
    modifyLines [none, some (mkRat 1 2)] [c2NegLine] =
      .ok [c2NegLine ++ [' ', ' ', '0', '.', '5', '0']] ∧
    modifyLines [none, some (mkRat 1 2)] [c2NegLine] ≠ .ok [c2NegLine] := by
  refine ⟨by decide, by decide, by decide⟩

/-- C2 (amended): provided every ATOM/HETATM line has residue columns
[22, 26) that `int()` parses to a NONNEGATIVE integer, the pass is a
single-pass order-preserving transform: one output line per input line, in
order; non-atom lines, atom lines whose residue is at least the table
length, and atom lines whose table entry is NaN come out unchanged. -/
theorem c2_order_preserving_pass (t : List (Option ℚ))
    (lines : List (List Char))
    (hwf : ∀ l ∈ lines, isAtomLine l = true →
      ∃ n : ℕ, parsePyInt (pyStrip (pySlice l 22 26)) = some ((n : ℕ) : ℤ)) :
    ∃ out, modifyLines t lines = .ok out ∧
      out.length = lines.length ∧
      ∀ i : ℕ, ∀ l : List Char, lines[i]? = some l →
        ((isAtomLine l = false → out[i]? = some l) ∧
         (∀ n : ℕ, parsePyInt (pyStrip (pySlice l 22 26)) = some ((n : ℕ) : ℤ) →
            (t.length ≤ n ∨ t[n]? = some none) → out[i]? = some l)) := by
  induction lines with
  | nil =>
    exact ⟨[], rfl, rfl, fun i l hl => by simp at hl⟩
  | cons l0 ls ih =>
    obtain ⟨l0', hl0'⟩ := annotateLine_ok_exists t l0
      (hwf l0 (List.mem_cons_self l0 ls))
    obtain ⟨out, hout, hlen, hpt⟩ := ih
      (fun l hl => hwf l (List.mem_cons_of_mem l0 hl))
    refine ⟨l0' :: out, ?_, by simpa using hlen, ?_⟩
    · unfold modifyLines
      rw [hl0', hout]
    · intro i l hl
      cases i with
      | zero =>
        rw [List.getElem?_cons_zero] at hl
        obtain rfl : l0 = l := Option.some.inj hl
        constructor
        · intro hA
          have := annotateLine_not_atom t l0 hA
          rw [this] at hl0'
          rw [List.getElem?_cons_zero, Except.ok.inj hl0']
        · intro n hp hcase
          rcases hcase with hge | hnone
          · have := annotateLine_out_of_range t l0 n hp hge
            rw [this] at hl0'
            rw [List.getElem?_cons_zero, Except.ok.inj hl0']
          · rcases Nat.lt_or_ge n t.length with hlt | hge
            · have := annotateLine_no_data t l0 n hp hlt hnone
              rw [this] at hl0'
              rw [List.getElem?_cons_zero, Except.ok.inj hl0']
            · have := annotateLine_out_of_range t l0 n hp hge
              rw [this] at hl0'
              rw [List.getElem?_cons_zero, Except.ok.inj hl0']
      | succ i =>
        rw [List.getElem?_cons_succ] at hl
        have := hpt i l hl
        simpa using this

/-- C2 witness: the amended theorem applied to a two-line file (one header
line and one atom line whose residue 2 lies outside the one-slot table). -/
theorem c2_witness :
    ∃ out,
      modifyLines [(none : Option ℚ)]
        [['H', 'E', 'A', 'D', 'E', 'R'],
         ['A', 'T', 'O', 'M'] ++ List.replicate 18 ' ' ++ [' ', ' ', ' ', '2']] =
          .ok out ∧
      out.length = 2 ∧
      ∀ i : ℕ, ∀ l : List Char,
        ([['H', 'E', 'A', 'D', 'E', 'R'],
          ['A', 'T', 'O', 'M'] ++ List.replicate 18 ' ' ++
            [' ', ' ', ' ', '2']] : List (List Char))[i]? = some l →
        ((isAtomLine l = false → out[i]? = some l) ∧
         (∀ n : ℕ, parsePyInt (pyStrip (pySlice l 22 26)) = some ((n : ℕ) : ℤ) →
            ([(none : Option ℚ)].length ≤ n ∨
              [(none : Option ℚ)][n]? = some none) → out[i]? = some l)) :=
  c2_order_preserving_pass [(none : Option ℚ)] _ (by
    intro l hl hA
    simp only [List.mem_cons, List.not_mem_nil, or_false] at hl
    rcases hl with rfl | rfl
    · exact absurd hA (by decide)
    · exact ⟨2, by decide⟩)

/-- C3: on a nonempty list of valid records (every residue number present),
the aggregated table holds, at each represented residue, the arithmetic
mean of the scores of the records sharing that residue number rounded to 4
decimals; and that rounding is idempotent. -/
theorem c3_mean_rounded (recs : List VariantRecord) (n : ℕ)
    (hvalid : recs ≠ [] ∧ ∀ r ∈ recs, r.residue_number ≠ none)
    (hrep : scoresAt recs n ≠ []) :
    (∃ t, calculate_average_pathogenicity (some recs) = .ok (some t) ∧
       t[n]? = some (some (round4 (meanAt recs n)))) ∧
    ∀ q : ℚ, round4 (round4 q) = round4 q := by
  obtain ⟨r, hr, hrn⟩ := (scoresAt_ne_nil_iff recs n).mp hrep
  have hmem : n ∈ recs.filterMap (·.residue_number) :=
    List.mem_filterMap.mpr ⟨r, hr, by rw [hrn]⟩
  have hle : n ≤ maxResidue recs := le_foldr_max _ _ hmem
  refine ⟨⟨(List.range (maxResidue recs + 1)).map (fun i =>
    if scoresAt recs i = [] then none else some (round4 (meanAt recs i))),
    ?_, ?_⟩, round4_idem⟩
  · simp only [calculate_average_pathogenicity]
    rw [if_pos hvalid]
  · rw [List.getElem?_map, List.getElem?_range (by omega : n < maxResidue recs + 1)]
    simp only [Option.map_some']
    rw [if_neg hrep]

/-- C3 witness: the end-to-end example rows `M1V 0.1`, `M1K 0.3`,
`A2G 0.9`; residue 1 aggregates to mean(0.1, 0.3) = 0.2. -/
theorem c3_witness :
    (c3Recs ≠ [] ∧ ∀ r ∈ c3Recs, r.residue_number ≠ none) ∧
    scoresAt c3Recs 1 ≠ [] ∧
    round4 (meanAt c3Recs 1) = mkRat 1 5 ∧
    ((∃ t, calculate_average_pathogenicity (some c3Recs) = .ok (some t) ∧
       t[1]? = some (some (round4 (meanAt c3Recs 1)))) ∧
     ∀ q : ℚ, round4 (round4 q) = round4 q) :=
  ⟨⟨by decide, by decide⟩, by decide, by decide,
    c3_mean_rounded c3Recs 1 ⟨by decide, by decide⟩ (by decide)⟩

/-- C7 counterexample: the claim fails "regardless of the input records".
The syntactically valid identifier `M0V` parses to residue number 0, and
the aggregator then stores its score AT index 0: the table is
`[some 0.5]`, not "no data" at index 0. -/
theorem c7_counterexample :
    extractNum ['M', '0', 'V'] = some 0 ∧
    calculate_average_pathogenicity (some [c7Rec]) =
      .ok (some [some (mkRat 1 2)]) ∧
    ([some (mkRat 1 2)] : List (Option ℚ))[0]? ≠ some none := by
  refine ⟨by decide, by decide, by decide⟩

/-- C7 (amended): whenever the aggregator builds a table (nonempty input,
all residue numbers present) and every residue number is at least 1 (as
the data model stipulates), the table has length `max residue + 1` and
holds the NaN marker at index 0. -/
theorem c7_table_shape (recs : List VariantRecord)
    (hvalid : recs ≠ [] ∧ ∀ r ∈ recs, r.residue_number ≠ none)
    (hpos : ∀ r ∈ recs, ∀ k : ℕ, r.residue_number = some k → 1 ≤ k) :
    ∃ t, calculate_average_pathogenicity (some recs) = .ok (some t) ∧
      t.length = maxResidue recs + 1 ∧
      t[0]? = some none := by
  have hzero : scoresAt recs 0 = [] := by
    by_contra h
    obtain ⟨r, hr, hrn⟩ := (scoresAt_ne_nil_iff recs 0).mp h
    exact absurd (hpos r hr 0 hrn) (by omega)
  refine ⟨(List.range (maxResidue recs + 1)).map (fun i =>
    if scoresAt recs i = [] then none else some (round4 (meanAt recs i))),
    ?_, ?_, ?_⟩
  · simp only [calculate_average_pathogenicity]
    rw [if_pos hvalid]
  · simp
  · rw [List.getElem?_map, List.getElem?_range (by omega : 0 < maxResidue recs + 1)]
    simp only [Option.map_some']
    rw [if_pos hzero]

/-- C7 witness: one valid record at residue 1 yields a table of length 2
with NaN at index 0. -/
theorem c7_witness :
    ([c7wRec] ≠ [] ∧ ∀ r ∈ [c7wRec], r.residue_number ≠ none) ∧
    (∀ r ∈ [c7wRec], ∀ k : ℕ, r.residue_number = some k → 1 ≤ k) ∧
    ∃ t, calculate_average_pathogenicity (some [c7wRec]) = .ok (some t) ∧
      t.length = maxResidue [c7wRec] + 1 ∧
      t[0]? = some none :=
  ⟨⟨by decide, by decide⟩, by decide,
    c7_table_shape [c7wRec] ⟨by decide, by decide⟩ (by decide)⟩

/-- C6 counterexample: a row malformed only in its leading letter
(`a12B`: reference field absent) still carries digit run 12 and DOES
contribute to residue 12: together with the well-formed `A12B` of score 0
the aggregate at index 12 is 0.5, whereas the well-formed rows alone
average to 0. -/
theorem c6_counterexample :
    c6Rec2.reference_aa = none ∧
    calculate_average_pathogenicity (some [c6Rec1, c6Rec2]) =
      .ok (some c6Table) ∧
    c6Table[12]? = some (some (mkRat 1 2)) ∧
    round4 (meanAt [c6Rec1] 12) = 0 ∧
    (mkRat 1 2 : ℚ) ≠ 0 := by
  refine ⟨by decide, by decide, by decide, by decide, by decide⟩

/-- C6 (amended): a row whose identifier has no digit run yields a record
with an absent residue number (and absent letter fields where those fail),
and it can never contribute a spurious residue average — but not by being
silently dropped: its presence makes the aggregator raise TypeError (the
residue column then holds NaN, so `np.full` receives a non-integer
shape). Rows that do carry a digit run contribute regardless of their
letter fields. -/
theorem c6_malformed_rows (s : List Char) (q : ℚ) (recs : List VariantRecord)
    (hnd : firstDigitRun s = none) :
    (extractRecord ⟨s, q⟩).residue_number = none ∧
    (extractRef s = none → (extractRecord ⟨s, q⟩).reference_aa = none) ∧
    (extractAlt s = none → (extractRecord ⟨s, q⟩).alternative_aa = none) ∧
    calculate_average_pathogenicity (some (extractRecord ⟨s, q⟩ :: recs)) =
      .error .typeError := by
  have hres : (extractRecord ⟨s, q⟩).residue_number = none := by
    simp [extractRecord, extractNum, hnd]
  refine ⟨hres, fun h => by simp [extractRecord, h], fun h => by simp [extractRecord, h], ?_⟩
  simp only [calculate_average_pathogenicity]
  rw [if_neg]
  rintro ⟨-, hall⟩
  exact hall _ (List.mem_cons_self _ _) hres

/-- C6 witness: the amended theorem at the digit-free identifier `XYZ`. -/
theorem c6_witness :
    firstDigitRun ['X', 'Y', 'Z'] = none ∧
    ((extractRecord ⟨['X', 'Y', 'Z'], mkRat 1 2⟩).residue_number = none ∧
     (extractRef ['X', 'Y', 'Z'] = none →
       (extractRecord ⟨['X', 'Y', 'Z'], mkRat 1 2⟩).reference_aa = none) ∧
     (extractAlt ['X', 'Y', 'Z'] = none →
       (extractRecord ⟨['X', 'Y', 'Z'], mkRat 1 2⟩).alternative_aa = none) ∧
     calculate_average_pathogenicity
       (some [extractRecord ⟨['X', 'Y', 'Z'], mkRat 1 2⟩]) =
         .error .typeError) :=
  ⟨by decide, c6_malformed_rows ['X', 'Y', 'Z'] (mkRat 1 2) [] (by decide)⟩

/-- C4 counterexample: the identifier `A01B` matches
`<uppercase><digits><uppercase>`, parses to ('A', 1, 'B'), but
reconstructing from the parsed fields gives `A1B`, not the original
string: the round-trip loses leading zeros of the digit run. -/
theorem c4_counterexample :
    extractRef ['A', '0', '1', 'B'] = some 'A' ∧
    extractNum ['A', '0', '1', 'B'] = some 1 ∧
    extractAlt ['A', '0', '1', 'B'] = some 'B' ∧
    reconstructVariant 'A' 1 'B' = ['A', '1', 'B'] ∧
    reconstructVariant 'A' 1 'B' ≠ ['A', '0', '1', 'B'] := by
  refine ⟨by decide, by decide, by decide, by decide, by decide⟩

/-- C4 (amended): for identifiers `<uppercase><digits><uppercase>` whose
digit run has no leading zero (or is exactly `"0"`), the parser recovers
the three components and reconstruction reproduces the original string. -/
theorem c4_roundtrip (L1 L2 : Char) (ds : List Char)
    (hU1 : L1.isUpper = true) (hU2 : L2.isUpper = true)
    (hne : ds ≠ []) (hdig : ∀ c ∈ ds, c.isDigit = true)
    (hlz : ds.head? ≠ some '0' ∨ ds = ['0']) :
    extractRef (L1 :: (ds ++ [L2])) = some L1 ∧
    extractNum (L1 :: (ds ++ [L2])) = some (digitsVal ds) ∧
    extractAlt (L1 :: (ds ++ [L2])) = some L2 ∧
    reconstructVariant L1 (digitsVal ds) L2 = L1 :: (ds ++ [L2]) := by
  have hrt : natToDecimal (digitsVal ds) = ds :=
    natToDecimal_digitsVal ds hne hdig hlz
  obtain ⟨d, ds', rfl⟩ := List.exists_cons_of_ne_nil hne
  refine ⟨by simp [extractRef, hU1], ?_, ?_, ?_⟩
  · have h1 : (!L1.isDigit) = true := by
      rw [not_isDigit_of_isUpper L1 hU1]; rfl
    have h2 : (!d.isDigit) = false := by
      rw [hdig d (List.mem_cons_self d ds')]; rfl
    have hfd : (L1 :: ((d :: ds') ++ [L2])).dropWhile (fun c => !c.isDigit) =
        d :: (ds' ++ [L2]) := by
      simp only [List.cons_append, List.dropWhile_cons, h1, h2]
      simp
    have htw : List.takeWhile Char.isDigit (d :: (ds' ++ [L2])) = d :: ds' := by
      have := takeWhile_all_concat Char.isDigit (d :: ds') L2 hdig
        (not_isDigit_of_isUpper L2 hU2)
      simpa using this
    unfold extractNum firstDigitRun
    rw [hfd]
    simp only [htw, Option.map_some']
  · unfold extractAlt
    rw [show L1 :: ((d :: ds') ++ [L2]) = (L1 :: d :: ds') ++ [L2] from rfl,
      List.getLast?_concat]
    simp [hU2]
  · unfold reconstructVariant
    rw [hrt]

/-- C4 witness: the amended theorem at `M1V`. -/
theorem c4_witness :
    ('M' : Char).isUpper = true ∧ ('V' : Char).isUpper = true ∧
    (['1'] : List Char) ≠ [] ∧ (∀ c ∈ ['1'], c.isDigit = true) ∧
    ((['1'] : List Char).head? ≠ some '0' ∨ (['1'] : List Char) = ['0']) ∧
    (extractRef ['M', '1', 'V'] = some 'M' ∧
     extractNum ['M', '1', 'V'] = some (digitsVal ['1']) ∧
     extractAlt ['M', '1', 'V'] = some 'V' ∧
     reconstructVariant 'M' (digitsVal ['1']) 'V' = ['M', '1', 'V']) :=
  ⟨by decide, by decide, by decide, by decide, by decide,
    c4_roundtrip 'M' 'V' ['1'] (by decide) (by decide) (by decide) (by decide)
      (by decide)⟩

/-- C5: the aggregator returns the None signal only when the parser
signalled None (table could not be loaded), and the caller then skips
annotation (`processOne` with an unloadable CSV completes without invoking
the annotator). But on a loaded table with NO valid records — empty, or
every identifier lacking a digit run — the aggregator does not return the
signal: it raises TypeError (`np.full` gets a NaN-derived shape), contrary
to the claim. -/
theorem c5_no_data_signal :
    calculate_average_pathogenicity none = .ok none ∧
    calculate_average_pathogenicity (some []) = .error .typeError ∧
    calculate_average_pathogenicity
      (extract_am_data (some [⟨['X', 'Y', 'Z'], mkRat 1 2⟩])) =
        .error .typeError ∧
    processOne w5 ['P', '1'] = .ok () := by
  refine ⟨by decide, by decide, by decide, by decide⟩

/-- C8: processing a batch where the first protein has a fully malformed
variant table raises TypeError inside the aggregator; the batch loop
catches only RequestException, so the whole run aborts and the second
protein is never processed — contrary to the claim. With a well-formed
table the same batch completes. -/
theorem c8_batch_abort :
    processOne w8 ['P', '1'] = .error .typeError ∧
    process_am_from_file w8 [['P', '1'], ['P', '2']] = .error .typeError ∧
    process_am_from_file w8good [['P', '1'], ['P', '2']] = .ok () := by
  refine ⟨by decide, by decide, by decide⟩

/-- C9 counterexample: an UNREADABLE (present but permission-denied) AM
file is not caught — only FileNotFoundError and ValueError are — so the
extractor raises instead of returning an empty first sequence alongside
the second one. -/
theorem c9_counterexample :
    extract_pathogenicity_and_plddt (.error .permissionDenied) (some []) =
      .error .osError := by
  decide

/-- C9 (amended): an ABSENT AM file yields an empty first series, a failed
or absent URL fetch yields an empty second series, and the two extractions
are independent: each component depends only on its own source. An
unreadable-but-present AM file instead raises. -/
theorem c9_source_independence :
    (∀ p : Option (List (List Char)),
      extract_pathogenicity_and_plddt (.error .notFound) p =
        .ok ([], p.elim [] collectScores)) ∧
    (∀ (ls : List (List Char)) (p : Option (List (List Char))),
      extract_pathogenicity_and_plddt (.ok ls) p =
        .ok (collectScores ls, p.elim [] collectScores)) := by
  constructor
  · intro p
    cases p <;> rfl
  · intro ls p
    cases p <;> rfl

/-- C10: there is an input structure file on which the annotator raises an
unhandled exception rather than copying the line or reporting locally: a
bare `ATOM` line has empty residue columns [22, 26), and
`int("".strip())` raises ValueError, which the surrounding `try` (catching
only IOError) does not handle. -/
theorem c10_unparsable_residue_raises :
    annotateLine [] ['A', 'T', 'O', 'M'] = .error .valueError ∧
    modifyLines [] [['A', 'T', 'O', 'M']] = .error .valueError := by
  refine ⟨by decide, by decide⟩
